import Mathlib

/-!
Verification of the go-nats-go messaging core.

This file gives a shallow embedding of the repository's message codec,
generator pipeline, producer publish loop, configuration validation and
consumer data-topic handler, and proves properties of the embedding.

Modelling conventions:
- Go byte slices are `List Nat` (entries are byte values).
- Go `uint64` values are `Nat`; where Go arithmetic can wrap, the result is
  taken `% 2 ^ 64` explicitly.
- A Go runtime panic (out-of-range slice expression, out-of-range index
  write in `binary.PutUvarint`) is modelled as `none` / a dedicated
  `panicked` outcome: the surrounding computation produces no value.
- External collaborators (AES-GCM decryption, JSON unmarshalling, the file
  parser feeding `readConfig`, wall-clock timestamps, the NATS transport)
  are parameters of the embedding; the embedded code never inspects them
  beyond their declared interface.
-/

/-- The four ASCII bytes of the tag string "byte". -/
def byteTag : List Nat := [98, 121, 116, 101]

/-- The four ASCII bytes of the tag string "json". -/
def jsonTag : List Nat := [106, 115, 111, 110]

/-- The four ASCII bytes of the tag string "encr". -/
def encrTag : List Nat := [101, 110, 99, 114]

/-- Loop of Go's `binary.Uvarint`, reading one byte per step.  `x` is the
accumulator, `s` the current shift, `i` the byte index.  Mirrors the Go
source: a byte below `0x80` terminates (returning 0 on the overflow checks
`i >= 10` or `i == 9 && b > 1`), a byte at or above `0x80` contributes its
low seven bits and the loop continues; an exhausted buffer yields 0.
`uint64` wrap-around is made explicit with `% 2 ^ 64`. -/
def uvarintLoop : List Nat → Nat → Nat → Nat → Nat
  | [], _, _, _ => 0
  | b :: rest, x, s, i =>
    if b < 128 then
      if 10 ≤ i ∨ (i = 9 ∧ 1 < b) then 0
      else (x ||| b <<< s) % 2 ^ 64
    else uvarintLoop rest ((x ||| (b % 128) <<< s) % 2 ^ 64) (s + 7) (i + 1)

/-- Go's `binary.Uvarint(buf)` with the error component discarded, exactly
as the repository does (`value, _ := binary.Uvarint(...)`). -/
def goUvarint (buf : List Nat) : Nat := uvarintLoop buf 0 0 0

/-- The sequence of bytes written by Go's `binary.PutUvarint` for `x`:
while `x >= 0x80` it writes `byte(x) | 0x80` (that is, the low seven bits
of `x` with the top bit set) and shifts `x` right by 7; the final byte is
`x` itself (then below `0x80`). -/
def putUvarintList (x : Nat) : List Nat :=
  if x < 128 then [x] else (x % 128 + 128) :: putUvarintList (x >>> 7)
termination_by x
decreasing_by
  simp [Nat.shiftRight_eq_div_pow]
  omega

/-- Writing a varint into a zero-initialised 8-byte field, as the
repository does with `binary.PutUvarint(msg[8:16], count)`: the written
bytes followed by the remaining zeros.  If the varint needs more than 8
bytes, `PutUvarint` indexes past the end of the 8-byte slice and panics,
modelled as `none`. -/
def putUvarintField (x : Nat) : Option (List Nat) :=
  if (putUvarintList x).length ≤ 8 then
    some (putUvarintList x ++ List.replicate (8 - (putUvarintList x).length) 0)
  else none

namespace rawMessage

/-- Go `raw[:4]` (the message-kind tag); panics when the slice is shorter
than 4 bytes. -/
def messageType (raw : List Nat) : Option (List Nat) :=
  if raw.length < 4 then none else some (raw.take 4)

/-- Go `raw[4:8]` (the payload-format tag); panics when the slice is
shorter than 8 bytes. -/
def format (raw : List Nat) : Option (List Nat) :=
  if raw.length < 8 then none else some ((raw.drop 4).take 4)

/-- Go `raw[8:]` (the payload); panics when the slice is shorter than 8
bytes. -/
def message (raw : List Nat) : Option (List Nat) :=
  if raw.length < 8 then none else some (raw.drop 8)

end rawMessage

namespace byteMessage

/-- Go `byteMessage.count()`: `binary.Uvarint(bytes[:8])` with the error
dropped; the slice expression panics when the payload is shorter than 8
bytes. -/
def count (bytes : List Nat) : Option Nat :=
  if bytes.length < 8 then none else some (goUvarint (bytes.take 8))

/-- Go `byteMessage.total()`: `binary.Uvarint(bytes[8:16])` with the error
dropped; the slice expression panics when the payload is shorter than 16
bytes. -/
def total (bytes : List Nat) : Option Nat :=
  if bytes.length < 16 then none else some (goUvarint ((bytes.drop 8).take 8))

/-- Go `byteMessage.data()`: `bytes[16:]`; panics when the payload is
shorter than 16 bytes. -/
def data (bytes : List Nat) : Option (List Nat) :=
  if bytes.length < 16 then none else some (bytes.drop 16)

end byteMessage

/-- A rawMessage generator, `func(uint64, uint64) rawMessage`.  The
`Option` records that a call can panic. -/
def rawMessageGenerator : Type := Nat → Nat → Option (List Nat)

/-- Go `byteMessageFunc(data)`: allocates a zeroed buffer of
`4+4+8+8+len(data)` bytes, writes the `count` varint at bytes 8..16, the
`total` varint at bytes 16..24 and copies `data` to byte 24 onward.  The
header bytes 0..8 stay zero. -/
def byteMessageFunc (data : List Nat) : rawMessageGenerator :=
  fun count total =>
    match putUvarintField count with
    | none => none
    | some cf =>
      match putUvarintField total with
      | none => none
      | some tf => some (List.replicate 8 0 ++ cf ++ tf ++ data)

/-- Go's builtin `copy(dst, src)`: replaces the first
`min (len dst) (len src)` elements of `dst` with those of `src`. -/
def listCopy (dst src : List Nat) : List Nat :=
  src.take (min dst.length src.length) ++ dst.drop (min dst.length src.length)

/-- Go `copy(msg[a:b], src)` performed on the whole slice: the slice
expression `msg[a:b]` panics unless `a ≤ b ≤ len msg`; otherwise the
segment is copied over in place. -/
def copySeg (msg : List Nat) (a b : Nat) (src : List Nat) : Option (List Nat) :=
  if a ≤ b ∧ b ≤ msg.length then
    some (msg.take a ++ listCopy ((msg.drop a).take (b - a)) src ++ msg.drop b)
  else none

/-- Go `rawMessageFunc(msgType, format, generateMessage)`: calls the inner
generator, then stamps the kind tag over bytes 0..4 and the format tag
over bytes 4..8 of the produced message. -/
def rawMessageFunc (msgType fmt : List Nat) (generateMessage : rawMessageGenerator) :
    rawMessageGenerator :=
  fun count total =>
    match generateMessage count total with
    | none => none
    | some msg =>
      match copySeg msg 0 4 msgType with
      | none => none
      | some m1 => copySeg m1 4 8 fmt

/-- The control-plane `metric` record.  The `Time` field of the Go struct
is an external wall-clock timestamp with no protocol significance here and
is omitted; `Job` and `Count` are the fields the protocol reads. -/
structure metric where
  Job : String
  Count : Nat
deriving DecidableEq, Repr

/-- Outcome of the decode portion of the slave data handler: a Go panic,
an early discarding return, or a decoded message exposing `count()` and
`total()`. -/
inductive hres where
  | panicked : hres
  | discarded : hres
  | ok : Nat → Nat → hres
deriving DecidableEq, Repr

/-- The decode portion of the slave `.data` handler (main.go lines
350-384 up to the `total()`/`count()` evaluations): extract the payload
(panicking on messages shorter than 8 bytes), decrypt when the format tag
is "encr" (discarding on failure), then decode by kind tag: "byte" and
any unrecognised kind give a byteMessage (whose `total()`/`count()`
evaluations panic on payloads shorter than 16 bytes), "json" goes through
the unmarshaller (discarding on failure).  `decrypt` and `unmarshal` are
the external collaborators `easycrypt.Decrypt` (with the configured key)
and `json.Unmarshal` into a `structMessage`, the latter returning the
`Count` and `Total` fields. -/
def handlerDecode (decrypt : List Nat → Option (List Nat))
    (unmarshal : List Nat → Option (Nat × Nat)) (raw : List Nat) : hres :=
  match rawMessage.message raw, rawMessage.format raw, rawMessage.messageType raw with
  | some body, some fmt, some kind =>
    match (if fmt = encrTag then decrypt body else some body) with
    | none => hres.discarded
    | some msgBytes =>
      if kind = byteTag then
        match byteMessage.total msgBytes, byteMessage.count msgBytes with
        | some t, some c => hres.ok c t
        | _, _ => hres.panicked
      else if kind = jsonTag then
        match unmarshal msgBytes with
        | none => hres.discarded
        | some ct => hres.ok ct.1 ct.2
      else
        match byteMessage.total msgBytes, byteMessage.count msgBytes with
        | some t, some c => hres.ok c t
        | _, _ => hres.panicked
  | _, _, _ => hres.panicked

/-- One invocation of the slave `.data` handler on a delivered message,
from counter state `rc` (`receivedCounter`).  Returns the new counter
value and the list of metrics published during the invocation, or `none`
when the invocation panics.  The deferred `receivedCounter++` runs at
return on every non-panicking path, after the body (so after the
`count()==0` reset); the increment is `uint64` arithmetic.  A message
with `total() == 0` is discarded; a `count() == 0` message resets the
counter to 0 before the completion test; when `count() == total()-1` and
the (possibly reset) counter equals `total()-1`, a "received" metric
carrying `total()` is published. -/
def dataHandler (decrypt : List Nat → Option (List Nat))
    (unmarshal : List Nat → Option (Nat × Nat)) (raw : List Nat) (rc : Nat) :
    Option (Nat × List metric) :=
  match handlerDecode decrypt unmarshal raw with
  | hres.panicked => none
  | hres.discarded => some ((rc + 1) % 2 ^ 64, [])
  | hres.ok c t =>
    if t = 0 then some ((rc + 1) % 2 ^ 64, [])
    else
      let rc1 := if c = 0 then 0 else rc
      if c = t - 1 ∧ rc1 = t - 1 then
        some ((rc1 + 1) % 2 ^ 64, [{ Job := "received", Count := t }])
      else
        some ((rc1 + 1) % 2 ^ 64, [])

/-- Serialised execution of the slave handler over a delivery sequence
(the transport invokes the handler once per delivered message); a panic
aborts the process, so processing stops with `none`.  Returns the final
counter and the concatenated published metrics. -/
def runHandler (decrypt : List Nat → Option (List Nat))
    (unmarshal : List Nat → Option (Nat × Nat)) :
    List (List Nat) → Nat → Option (Nat × List metric)
  | [], rc => some (rc, [])
  | raw :: rest, rc =>
    match dataHandler decrypt unmarshal raw rc with
    | none => none
    | some (rc2, pubs) =>
      match runHandler decrypt unmarshal rest rc2 with
      | none => none
      | some (rc3, pubs2) => some (rc3, pubs ++ pubs2)

/-- The repository's configuration record.  The AES key is kept as the
byte sequence of the configured string, since Go's `len` on a string
counts bytes. -/
structure configuration where
  Subject : String
  Total : Nat
  NATSServerURL : String
  Timeout : Int
  Scenario : String
  AESEncryptionKey : List Nat
  NumBytes : Nat
  Filename : String

/-- The value of `nats.DefaultURL`, an external constant. -/
def natsDefaultURL : String := "nats://127.0.0.1:4222"

/-- Go `readConfig`: the external `gonfig.GetConf` file parse is modelled
by the `Option configuration` argument (`none` is a parse failure, wrapped
into an error).  A parsed configuration is then validated: a key whose
length is not 32 is rejected, and empty `Subject`/`NATSServerURL` fields
are given their defaults. -/
def readConfig : Option configuration → Except String configuration
  | none => Except.error "config: gonfig.getconf issue"
  | some config =>
    if config.AESEncryptionKey.length ≠ 32 then
      Except.error "config: len(config.AESEncryptionKey) != 32"
    else
      Except.ok
        { config with
          Subject := if config.Subject = "" then "speedtestnats" else config.Subject
          NATSServerURL :=
            if config.NATSServerURL = "" then natsDefaultURL else config.NATSServerURL }

/-- The master publish loop `for ; count < total; count++`, counting up
from `count` with `fuel = total - count` iterations remaining: each step
invokes the generator with `(count, total)` and publishes the produced
message on the data topic; a generator panic kills the goroutine.
Returns the list of published messages in publish order. -/
def publishLoopAux (gen : rawMessageGenerator) (total : Nat) :
    Nat → Nat → Option (List (List Nat))
  | 0, _ => some []
  | fuel + 1, count =>
    match gen count total with
    | none => none
    | some msg =>
      match publishLoopAux gen total fuel (count + 1) with
      | none => none
      | some rest => some (msg :: rest)

/-- The master publish burst over the whole job: counts 0 to `total - 1`. -/
def publishLoop (gen : rawMessageGenerator) (total : Nat) : Option (List (List Nat)) :=
  publishLoopAux gen total total 0

/-- Startup-to-publish flow of the master process: `main` reads and
validates the configuration and returns (publishing nothing) when
`readConfig` fails; otherwise the scenario's generator `gen` drives the
publish burst of `Total` messages. -/
def masterRun (parsed : Option configuration) (gen : rawMessageGenerator) :
    Option (List (List Nat)) :=
  match readConfig parsed with
  | Except.error _ => some []
  | Except.ok config => publishLoop gen config.Total

/-- A decrypting collaborator that always fails; used to instantiate
theorems at concrete inputs whose format tag is not "encr". -/
def noDecrypt : List Nat → Option (List Nat) := fun _ => none

/-- An unmarshalling collaborator that always fails; used to instantiate
theorems at concrete inputs whose kind tag is not "json". -/
def noUnmarshal : List Nat → Option (Nat × Nat) := fun _ => none

/-- An inner generator producing an empty message, a witness that the
framing wrapper panics on messages shorter than the 8-byte header. -/
def emptyGen : rawMessageGenerator := fun _ _ => some []

/-- A transparent generator used to instantiate the publish-loop theorem:
its message is the singleton list holding the count. -/
def countGen : rawMessageGenerator := fun count _ => some [count]

/-- A concrete framed plain byte message: kind "byte", format "byte",
count `c`, total `t` (both assumed below 128 so their varint encodings are
single bytes). -/
def msgCT (c t : Nat) : List Nat :=
  byteTag ++ byteTag ++ [c, 0, 0, 0, 0, 0, 0, 0] ++ [t, 0, 0, 0, 0, 0, 0, 0]

/-- A generator returning a fixed 9-byte message, long enough for the
framing wrapper to stamp both tags. -/
def eightGen : rawMessageGenerator := fun _ _ => some [9, 9, 9, 9, 9, 9, 9, 9, 3]

/-- A decrypting collaborator that always "succeeds" with junk, used to
show that handlers on non-"encr" messages never consult the decrypter. -/
def junkDecrypt : List Nat → Option (List Nat) := fun _ => some [42]

/-- A delivered message whose format tag is "xxxx", neither "byte" nor
"encr", and whose kind tag is unrecognised as well. -/
def oddFormatMsg : List Nat :=
  [0, 0, 0, 0] ++ [120, 120, 120, 120] ++
    [1, 0, 0, 0, 0, 0, 0, 0] ++ [3, 0, 0, 0, 0, 0, 0, 0]

/-- A parsed configuration carrying a 3-byte AES key. -/
def badKeyConfig : configuration :=
  { Subject := "speed", Total := 3, NATSServerURL := "", Timeout := 0,
    Scenario := "emptybytes", AESEncryptionKey := [1, 2, 3], NumBytes := 16,
    Filename := "" }

/-- Disjoint bitwise or: when `a` fits below the shift position, or-ing in
a left-shifted value is plain addition. -/
theorem lor_shift_disjoint (a b s : Nat) (h : a < 2 ^ s) :
    a ||| (b <<< s) = a + b * 2 ^ s := by
  apply Nat.eq_of_testBit_eq
  intro j
  rw [Nat.testBit_lor, Nat.testBit_shiftLeft]
  by_cases hj : j < s
  · rw [decide_eq_false (by omega : ¬ (j ≥ s))]
    simp only [Bool.false_and, Bool.or_false]
    have h2 : (a + b * 2 ^ s).testBit j = ((a + b * 2 ^ s) % 2 ^ s).testBit j := by
      rw [Nat.testBit_mod_two_pow, decide_eq_true (by omega : j < s)]
      simp
    rw [h2, Nat.add_mul_mod_self_right, Nat.mod_eq_of_lt h]
  · rw [decide_eq_true (by omega : j ≥ s)]
    simp only [Bool.true_and]
    have ha : a.testBit j = false := by
      apply Nat.testBit_lt_two_pow
      calc a < 2 ^ s := h
        _ ≤ 2 ^ j := Nat.pow_le_pow_right (by norm_num) (by omega)
    rw [ha]
    simp only [Bool.false_or]
    rw [Nat.testBit_to_div_mod, Nat.testBit_to_div_mod]
    have hdiv : (a + b * 2 ^ s) / 2 ^ j = b / 2 ^ (j - s) := by
      have hj' : (2 : Nat) ^ j = 2 ^ s * 2 ^ (j - s) := by
        rw [← pow_add]
        congr 1
        omega
      rw [hj', ← Nat.div_div_eq_div_mul,
        Nat.add_mul_div_right _ _ (Nat.pos_pow_of_pos s (by norm_num)),
        Nat.div_eq_of_lt h, Nat.zero_add]
    rw [hdiv]

/-- Varint length upper bound: a value below `2 ^ (7 * (n + 1))` encodes
into at most `n + 1` bytes. -/
theorem putUvarintList_length_le (n : Nat) :
    ∀ x, x < 2 ^ (7 * (n + 1)) → (putUvarintList x).length ≤ n + 1 := by
  induction n with
  | zero =>
    intro x hx
    norm_num at hx
    unfold putUvarintList
    rw [if_pos hx]
    simp
  | succ n ih =>
    intro x hx
    unfold putUvarintList
    split
    · simp
    · simp only [List.length_cons]
      have hd : x >>> 7 < 2 ^ (7 * (n + 1)) := by
        rw [Nat.shiftRight_eq_div_pow]
        have hsplit : x < 2 ^ (7 * (n + 1)) * 2 ^ 7 := by
          rw [← pow_add]
          have harg : 7 * (n + 1) + 7 = 7 * (n + 1 + 1) := by ring
          rw [harg]
          exact hx
        omega
      have := ih (x >>> 7) hd
      omega

/-- Varint length lower bound: a value at or above `2 ^ (7 * n)` needs at
least `n + 1` bytes. -/
theorem putUvarintList_length_ge (n : Nat) :
    ∀ x, 2 ^ (7 * n) ≤ x → n + 1 ≤ (putUvarintList x).length := by
  induction n with
  | zero =>
    intro x _
    unfold putUvarintList
    split <;> simp
  | succ n ih =>
    intro x hx
    have hx128 : ¬ (x < 128) := by
      have hmono : (2 : Nat) ^ 7 ≤ 2 ^ (7 * (n + 1)) := by
        apply Nat.pow_le_pow_right (by norm_num)
        omega
      norm_num at hmono
      omega
    unfold putUvarintList
    rw [if_neg hx128]
    simp only [List.length_cons]
    have hd : 2 ^ (7 * n) ≤ x >>> 7 := by
      rw [Nat.shiftRight_eq_div_pow]
      have hfac : 2 ^ (7 * (n + 1)) = 2 ^ (7 * n) * 2 ^ 7 := by
        have harg : 7 * (n + 1) = 7 * n + 7 := by ring
        rw [harg, pow_add]
      rw [hfac] at hx
      exact (Nat.le_div_iff_mul_le (by norm_num)).mpr hx
    have := ih (x >>> 7) hd
    omega

/-- Decoding an encoding: running the Uvarint loop over the bytes written
by PutUvarint (followed by anything) adds the encoded value, shifted into
place, to the accumulator, provided the final index stays below the
overflow checks and the value fits in 64 bits. -/
theorem uvarintLoop_encode (x : Nat) (rest : List Nat) :
    ∀ acc s i, acc < 2 ^ s → acc + x * 2 ^ s < 2 ^ 64 →
      i + (putUvarintList x).length ≤ 9 →
      uvarintLoop (putUvarintList x ++ rest) acc s i = acc + x * 2 ^ s := by
  induction x using putUvarintList.induct with
  | case1 x hx =>
    intro acc s i h1 h2 h3
    have hpl : putUvarintList x = [x] := by
      unfold putUvarintList
      rw [if_pos hx]
    rw [hpl] at h3 ⊢
    simp only [List.length_cons, List.length_nil] at h3
    show uvarintLoop (x :: rest) acc s i = acc + x * 2 ^ s
    unfold uvarintLoop
    rw [if_pos hx, if_neg (by omega : ¬ (10 ≤ i ∨ (i = 9 ∧ 1 < x))),
      lor_shift_disjoint acc x s h1, Nat.mod_eq_of_lt h2]
  | case2 x hx ih =>
    intro acc s i h1 h2 h3
    have hpl : putUvarintList x = (x % 128 + 128) :: putUvarintList (x >>> 7) := by
      conv_lhs => rw [putUvarintList.eq_def]
      rw [if_neg hx]
    rw [hpl] at h3 ⊢
    simp only [List.length_cons] at h3
    show uvarintLoop ((x % 128 + 128) :: (putUvarintList (x >>> 7) ++ rest)) acc s i =
      acc + x * 2 ^ s
    unfold uvarintLoop
    rw [if_neg (by omega : ¬ (x % 128 + 128 < 128))]
    have hbm : (x % 128 + 128) % 128 = x % 128 := by omega
    rw [hbm, lor_shift_disjoint acc (x % 128) s h1]
    have hrec : x % 128 + 128 * (x >>> 7) = x := by
      rw [Nat.shiftRight_eq_div_pow]
      norm_num
      exact Nat.mod_add_div x 128
    have hmle : x % 128 * 2 ^ s ≤ x * 2 ^ s := Nat.mul_le_mul_right _ (Nat.mod_le x 128)
    have hmod : (acc + x % 128 * 2 ^ s) % 2 ^ 64 = acc + x % 128 * 2 ^ s := by
      apply Nat.mod_eq_of_lt
      omega
    rw [hmod]
    have hval : acc + x % 128 * 2 ^ s + (x >>> 7) * 2 ^ (s + 7) = acc + x * 2 ^ s := by
      have hexp : (2 : Nat) ^ (s + 7) = 2 ^ s * 128 := by
        rw [pow_add]
        norm_num
      rw [hexp]
      have hlin : x % 128 * 2 ^ s + (x >>> 7) * (2 ^ s * 128) =
          (x % 128 + 128 * (x >>> 7)) * 2 ^ s := by ring
      rw [hrec] at hlin
      omega
    have hacc2 : acc + x % 128 * 2 ^ s < 2 ^ (s + 7) := by
      have hexp : (2 : Nat) ^ (s + 7) = 2 ^ s * 128 := by
        rw [pow_add]
        norm_num
      have hm128 : x % 128 < 128 := Nat.mod_lt x (by norm_num)
      have : x % 128 * 2 ^ s ≤ 127 * 2 ^ s := Nat.mul_le_mul_right _ (by omega)
      have h2s : 0 < 2 ^ s := Nat.pos_pow_of_pos s (by norm_num)
      rw [hexp]
      nlinarith
    rw [ih (acc + x % 128 * 2 ^ s) (s + 7) (i + 1) hacc2 (by omega) (by omega)]
    exact hval

/-- Decoding the bytes of an encoded value below `2 ^ 56` (a varint that
fits the repository's 8-byte field) recovers the value, whatever follows
the encoding in the buffer. -/
theorem goUvarint_putUvarint (x : Nat) (rest : List Nat) (hx : x < 2 ^ 56) :
    goUvarint (putUvarintList x ++ rest) = x := by
  have hlen : (putUvarintList x).length ≤ 8 := by
    have := putUvarintList_length_le 7 x (by norm_num; norm_num at hx; omega)
    omega
  have := uvarintLoop_encode x rest 0 0 0 (by norm_num)
    (by norm_num; norm_num at hx; omega) (by omega)
  simpa [goUvarint] using this

/-- A value below `2 ^ 56` produces an exact 8-byte field that decodes
back to the value. -/
theorem putUvarintField_spec (x : Nat) (hx : x < 2 ^ 56) :
    ∃ cf, putUvarintField x = some cf ∧ cf.length = 8 ∧ goUvarint cf = x := by
  have hlen : (putUvarintList x).length ≤ 8 := by
    have := putUvarintList_length_le 7 x (by norm_num; norm_num at hx; omega)
    omega
  refine ⟨putUvarintList x ++ List.replicate (8 - (putUvarintList x).length) 0, ?_, ?_, ?_⟩
  · unfold putUvarintField
    rw [if_pos hlen]
  · simp only [List.length_append, List.length_replicate]
    omega
  · exact goUvarint_putUvarint x _ hx

/-- Go's copy over a destination of exactly the source's length replaces
it entirely. -/
theorem listCopy_full (dst src : List Nat) (h : dst.length = src.length) :
    listCopy dst src = src := by
  unfold listCopy
  rw [h, min_self, List.take_length, ← h, List.drop_length, List.append_nil]

/-- A total whose varint does not fit the 8-byte field makes the byte
generator panic, whatever the count and data. -/
theorem byteMessageFunc_total_overflow (data : List Nat) (count total : Nat)
    (hc : (putUvarintList count).length ≤ 8)
    (ht : 9 ≤ (putUvarintList total).length) :
    byteMessageFunc data count total = none := by
  have hcf : putUvarintField count =
      some (putUvarintList count ++ List.replicate (8 - (putUvarintList count).length) 0) := by
    unfold putUvarintField
    rw [if_pos hc]
  have htf : putUvarintField total = none := by
    unfold putUvarintField
    rw [if_neg (by omega)]
  unfold byteMessageFunc
  rw [hcf, htf]

/-- C6 counterexample: at count 0, total `2 ^ 56` (a uint64 pair with
count < total), `byteMessageFunc` panics — `binary.PutUvarint` needs 9
bytes for `2 ^ 56` and writes past the end of the 8-byte total field — so
no message is generated at all and the round-trip property fails. -/
theorem byteMessage_roundtrip_cex :
    byteMessageFunc [] 0 (2 ^ 56) = none ∧ (0 : Nat) < 2 ^ 56 := by
  constructor
  · apply byteMessageFunc_total_overflow
    · have hz : putUvarintList 0 = [0] := by
        unfold putUvarintList
        norm_num
      rw [hz]
      norm_num
    · have := putUvarintList_length_ge 8 (2 ^ 56) (by norm_num)
      omega
  · norm_num

/-- C6 (amended): for every data and every count < total with both values
below `2 ^ 56` (so that their varint encodings fit the 8-byte fields),
generating a plain ByteMessage and decoding its payload yields back
exactly the count, the total and the data. -/
theorem byteMessage_exact_roundtrip (data : List Nat) (count total : Nat)
    (h1 : count < total) (h2 : total < 2 ^ 56) :
    ∃ raw payload, byteMessageFunc data count total = some raw ∧
      rawMessage.message raw = some payload ∧
      byteMessage.count payload = some count ∧
      byteMessage.total payload = some total ∧
      byteMessage.data payload = some data := by
  obtain ⟨cf, hcf, hcflen, hcfval⟩ := putUvarintField_spec count (lt_trans h1 h2)
  obtain ⟨tf, htf, htflen, htfval⟩ := putUvarintField_spec total h2
  refine ⟨List.replicate 8 0 ++ (cf ++ (tf ++ data)), cf ++ (tf ++ data), ?_, ?_, ?_, ?_, ?_⟩
  · simp only [byteMessageFunc, hcf, htf, List.append_assoc]
  · have hlen : (List.replicate 8 (0 : Nat) ++ (cf ++ (tf ++ data))).length =
        24 + data.length := by
      simp [hcflen, htflen]
      omega
    unfold rawMessage.message
    rw [if_neg (by omega), List.drop_left' (by simp)]
  · have hplen : (cf ++ (tf ++ data)).length = 16 + data.length := by
      simp [hcflen, htflen]
      omega
    unfold byteMessage.count
    rw [if_neg (by omega), List.take_left' hcflen, hcfval]
  · have hplen : (cf ++ (tf ++ data)).length = 16 + data.length := by
      simp [hcflen, htflen]
      omega
    unfold byteMessage.total
    rw [if_neg (by omega), List.drop_left' hcflen, List.take_left' htflen, htfval]
  · have hplen : (cf ++ (tf ++ data)).length = 16 + data.length := by
      simp [hcflen, htflen]
      omega
    unfold byteMessage.data
    rw [if_neg (by omega)]
    have hassoc : cf ++ (tf ++ data) = (cf ++ tf) ++ data := by
      simp [List.append_assoc]
    rw [hassoc, List.drop_left' (by simp [hcflen, htflen])]

/-- C6 witness: the amended round-trip at data [7], count 1, total 2. -/
theorem byteMessage_exact_roundtrip_witness :
    (1 : Nat) < 2 ∧ (2 : Nat) < 2 ^ 56 ∧
    (∃ raw payload, byteMessageFunc [7] 1 2 = some raw ∧
      rawMessage.message raw = some payload ∧
      byteMessage.count payload = some 1 ∧
      byteMessage.total payload = some 2 ∧
      byteMessage.data payload = some [7]) :=
  ⟨by norm_num, by norm_num,
    byteMessage_exact_roundtrip [7] 1 2 (by norm_num) (by norm_num)⟩

/-- C7 counterexample: on an inner generator producing the empty message
the framing wrapper panics — `msg[:4]` is out of range — so it does not
return a RawMessage carrying the kind and format tags. -/
theorem rawMessageFunc_header_cex :
    byteTag.length = 4 ∧ encrTag.length = 4 ∧
    rawMessageFunc byteTag encrTag emptyGen 0 1 = none := by
  decide

/-- C7 (amended): for every 4-byte kind tag, 4-byte format tag, inner
generator and count/total pair such that the inner generator returns a
message of at least 8 bytes, the framing wrapper returns that message with
its first 4 bytes replaced by the kind tag and bytes 4..8 replaced by the
format tag, regardless of what the inner generator wrote there. -/
theorem rawMessageFunc_stamps_header (kind fmt : List Nat) (gen : rawMessageGenerator)
    (count total : Nat) (msg : List Nat) (hk : kind.length = 4) (hf : fmt.length = 4)
    (hg : gen count total = some msg) (hm : 8 ≤ msg.length) :
    rawMessageFunc kind fmt gen count total = some (kind ++ (fmt ++ msg.drop 8)) ∧
    (kind ++ (fmt ++ msg.drop 8)).take 4 = kind ∧
    ((kind ++ (fmt ++ msg.drop 8)).drop 4).take 4 = fmt := by
  have hstep1 : copySeg msg 0 4 kind = some (kind ++ msg.drop 4) := by
    unfold copySeg
    rw [if_pos ⟨by omega, by omega⟩]
    simp only [List.take_zero, List.drop_zero, List.nil_append, Nat.sub_zero]
    rw [listCopy_full _ _ (by rw [List.length_take, hk]; omega)]
  have hm1len : (kind ++ msg.drop 4).length = msg.length := by
    simp [hk]
    omega
  have hstep2 : copySeg (kind ++ msg.drop 4) 4 8 fmt = some (kind ++ (fmt ++ msg.drop 8)) := by
    unfold copySeg
    rw [if_pos ⟨by omega, by rw [hm1len]; omega⟩]
    have hd8 : (kind ++ msg.drop 4).drop 8 = msg.drop 8 := by
      have h84 : (8 : Nat) = kind.length + 4 := by omega
      conv_lhs => rw [h84]
      rw [List.drop_append, List.drop_drop]
    have hlc : listCopy (((kind ++ msg.drop 4).drop 4).take (8 - 4)) fmt = fmt := by
      rw [List.drop_left' hk]
      exact listCopy_full _ _ (by rw [List.length_take, List.length_drop, hf]; omega)
    rw [List.take_left' hk, hd8, hlc, List.append_assoc]
  refine ⟨?_, List.take_left' hk, ?_⟩
  · simp only [rawMessageFunc, hg, hstep1, hstep2]
  · rw [List.drop_left' hk, List.take_left' hf]

/-- C7 witness: stamping "byte" and "encr" over a 9-byte inner message. -/
theorem rawMessageFunc_stamps_header_witness :
    byteTag.length = 4 ∧ encrTag.length = 4 ∧
    eightGen 0 1 = some [9, 9, 9, 9, 9, 9, 9, 9, 3] ∧
    8 ≤ ([9, 9, 9, 9, 9, 9, 9, 9, 3] : List Nat).length ∧
    (rawMessageFunc byteTag encrTag eightGen 0 1 =
      some (byteTag ++ (encrTag ++ ([9, 9, 9, 9, 9, 9, 9, 9, 3] : List Nat).drop 8)) ∧
    (byteTag ++ (encrTag ++ ([9, 9, 9, 9, 9, 9, 9, 9, 3] : List Nat).drop 8)).take 4 = byteTag ∧
    ((byteTag ++ (encrTag ++ ([9, 9, 9, 9, 9, 9, 9, 9, 3] : List Nat).drop 8)).drop 4).take 4 =
      encrTag) :=
  ⟨by decide, by decide, by decide, by decide,
    rawMessageFunc_stamps_header byteTag encrTag eightGen 0 1 [9, 9, 9, 9, 9, 9, 9, 9, 3]
      (by decide) (by decide) (by decide) (by decide)⟩

/-- One handler invocation on a message that decodes to count `c` and a
nonzero total `t`: possible reset, completion test, deferred increment. -/
theorem dataHandler_ok (d : List Nat → Option (List Nat)) (u : List Nat → Option (Nat × Nat))
    (raw : List Nat) (rc c t : Nat) (h : handlerDecode d u raw = hres.ok c t) (ht : t ≠ 0) :
    dataHandler d u raw rc =
      some (((if c = 0 then 0 else rc) + 1) % 2 ^ 64,
        if c = t - 1 ∧ (if c = 0 then 0 else rc) = t - 1 then
          [{ Job := "received", Count := t }]
        else []) := by
  simp only [dataHandler, h]
  rw [if_neg ht]
  split <;> split <;> rfl

/-- Processing two delivery sequences in a row: the counter threads
through, the published metrics concatenate, and a panic anywhere aborts. -/
theorem runHandler_append (d : List Nat → Option (List Nat)) (u : List Nat → Option (Nat × Nat))
    (l1 l2 : List (List Nat)) (rc : Nat) :
    runHandler d u (l1 ++ l2) rc =
      match runHandler d u l1 rc with
      | none => none
      | some (rc2, p1) =>
        match runHandler d u l2 rc2 with
        | none => none
        | some (rc3, p2) => some (rc3, p1 ++ p2) := by
  induction l1 generalizing rc with
  | nil =>
    simp only [List.nil_append, runHandler]
    cases h : runHandler d u l2 rc with
    | none => rfl
    | some p => rfl
  | cons a l ih =>
    simp only [List.cons_append, runHandler, List.append_eq]
    cases hd : dataHandler d u a rc with
    | none => rfl
    | some p =>
      obtain ⟨rc2, pubs⟩ := p
      dsimp only
      rw [ih rc2]
      cases h1 : runHandler d u l rc2 with
      | none => rfl
      | some q =>
        obtain ⟨rc3, p2⟩ := q
        dsimp only
        cases h2 : runHandler d u l2 rc3 with
        | none => rfl
        | some r =>
          obtain ⟨rc4, p3⟩ := r
          simp [List.append_assoc]

/-- In-order processing of a run of messages with counts
`start, start+1, ...` of a job with total `T`, entered with the counter
equal to `start`: the counter tracks the count, and exactly the invocation
whose count is `T - 1` (reached only when the run extends to `T`)
publishes the completion metric. -/
theorem runHandler_seq (d : List Nat → Option (List Nat)) (u : List Nat → Option (Nat × Nat))
    (T : Nat) (hT1 : 1 ≤ T) (hT64 : T < 2 ^ 64) :
    ∀ (l : List (List Nat)) (start : Nat),
      l.map (handlerDecode d u) = (List.range' start l.length).map (fun c => hres.ok c T) →
      start + l.length ≤ T →
      runHandler d u l start =
        some (start + l.length,
          if start + l.length = T ∧ 0 < l.length then [{ Job := "received", Count := T }]
          else []) := by
  intro l
  induction l with
  | nil =>
    intro start _ _
    simp [runHandler]
  | cons a l ih =>
    intro start hm hle
    simp only [List.length_cons, List.range'_succ, List.map_cons] at hm
    rw [List.cons.injEq] at hm
    obtain ⟨ha, hrest⟩ := hm
    simp only [List.length_cons] at hle
    have hstep := dataHandler_ok d u a start start T ha (by omega)
    simp only [show (if start = 0 then 0 else start) = start from by split <;> omega,
      and_self] at hstep
    rw [Nat.mod_eq_of_lt (by omega : start + 1 < 2 ^ 64)] at hstep
    simp only [runHandler, hstep, ih (start + 1) hrest (by omega)]
    simp only [List.length_cons]
    have h1 : start + 1 + l.length = start + (l.length + 1) := by omega
    rw [h1]
    by_cases hA : start = T - 1
    · have hlen0 : l.length = 0 := by omega
      rw [if_pos hA, if_neg (by omega : ¬ (start + (l.length + 1) = T ∧ 0 < l.length)),
        if_pos (⟨by omega, by omega⟩ : start + (l.length + 1) = T ∧ 0 < l.length + 1)]
      simp
    · rw [if_neg hA]
      by_cases hB : start + (l.length + 1) = T ∧ 0 < l.length
      · rw [if_pos hB, if_pos (⟨hB.1, by omega⟩ : start + (l.length + 1) = T ∧ 0 < l.length + 1)]
        simp
      · rw [if_neg hB, if_neg (by omega : ¬ (start + (l.length + 1) = T ∧ 0 < l.length + 1))]
        simp

/-- Out-of-step processing: a run of messages with counts
`start, start+1, ...`, none of them count 0 and none reaching the
completion test in step, entered with the counter one behind the counts:
every invocation just increments the counter and nothing is published. -/
theorem runHandler_desync (d : List Nat → Option (List Nat)) (u : List Nat → Option (Nat × Nat))
    (T : Nat) (hT64 : T < 2 ^ 64) :
    ∀ (l : List (List Nat)) (start rc : Nat),
      l.map (handlerDecode d u) = (List.range' start l.length).map (fun c => hres.ok c T) →
      rc + 1 = start → start + l.length ≤ T →
      runHandler d u l rc = some (rc + l.length, []) := by
  intro l
  induction l with
  | nil =>
    intro start rc _ _ _
    simp [runHandler]
  | cons a l ih =>
    intro start rc hm hrc hle
    simp only [List.length_cons, List.range'_succ, List.map_cons] at hm
    rw [List.cons.injEq] at hm
    obtain ⟨ha, hrest⟩ := hm
    simp only [List.length_cons] at hle
    have hstep := dataHandler_ok d u a rc start T ha (by omega)
    simp only [if_neg (by omega : ¬ start = 0)] at hstep
    rw [if_neg (by omega : ¬ (start = T - 1 ∧ rc = T - 1))] at hstep
    rw [Nat.mod_eq_of_lt (by omega : rc + 1 < 2 ^ 64)] at hstep
    simp only [runHandler, hstep, ih (start + 1) (rc + 1) hrest (by omega) (by omega)]
    have h1 : rc + 1 + l.length = rc + (l.length + 1) := by omega
    rw [h1]
    simp

/-- C1: starting from receivedCounter 0 with no job in progress, in-order
processing of the Total messages of one job (counts 0..Total-1, each
decoding with total() = Total, none lost or duplicated) publishes exactly
one "received" metric, carrying Count = Total, and it is published on the
final invocation (the one handling count Total-1): the run of the first
Total-1 messages publishes nothing. -/
theorem consumer_single_completion (d : List Nat → Option (List Nat))
    (u : List Nat → Option (Nat × Nat)) (T : Nat) (msgs : List (List Nat))
    (hT1 : 1 ≤ T) (hT64 : T < 2 ^ 64)
    (hm : msgs.map (handlerDecode d u) = (List.range T).map (fun c => hres.ok c T)) :
    runHandler d u msgs 0 = some (T, [{ Job := "received", Count := T }]) ∧
    runHandler d u (msgs.take (T - 1)) 0 = some (T - 1, []) := by
  have hlen : msgs.length = T := by
    have hcongr := congrArg List.length hm
    simpa using hcongr
  constructor
  · have h := runHandler_seq d u T hT1 hT64 msgs 0
      (by rw [hm, hlen, List.range_eq_range']) (by omega)
    rw [h, hlen, if_pos (⟨by omega, by omega⟩ : 0 + T = T ∧ 0 < T)]
    norm_num
  · have hmap : (msgs.take (T - 1)).map (handlerDecode d u) =
        (List.range' 0 (T - 1)).map (fun c => hres.ok c T) := by
      rw [List.map_take, hm, ← List.map_take, List.take_range,
        inf_eq_left.mpr (by omega : T - 1 ≤ T), List.range_eq_range']
    have hlen2 : (msgs.take (T - 1)).length = T - 1 := by
      rw [List.length_take, hlen]
      exact inf_eq_left.mpr (by omega)
    have h := runHandler_seq d u T hT1 hT64 (msgs.take (T - 1)) 0
      (by rw [hlen2]; exact hmap) (by rw [hlen2]; omega)
    rw [h, hlen2, if_neg (by omega : ¬ (0 + (T - 1) = T ∧ 0 < T - 1))]
    norm_num

/-- C1 witness: a two-message job processed in order publishes exactly
one completion metric, on the second invocation. -/
theorem consumer_single_completion_witness :
    (1 ≤ 2 ∧ 2 < 2 ^ 64 ∧
      [msgCT 0 2, msgCT 1 2].map (handlerDecode noDecrypt noUnmarshal) =
        (List.range 2).map (fun c => hres.ok c 2)) ∧
    runHandler noDecrypt noUnmarshal [msgCT 0 2, msgCT 1 2] 0 =
      some (2, [{ Job := "received", Count := 2 }]) ∧
    runHandler noDecrypt noUnmarshal ([msgCT 0 2, msgCT 1 2].take (2 - 1)) 0 =
      some (2 - 1, []) :=
  ⟨⟨by decide, by decide, by decide⟩,
    consumer_single_completion noDecrypt noUnmarshal 2 [msgCT 0 2, msgCT 1 2]
      (by decide) (by decide) (by decide)⟩

/-- C5: for Total at least 2, a delivery sequence of one job missing
exactly one message (the message with count m, m < Total-1, so the final
count Total-1 is delivered), processed from receivedCounter 0, publishes
no "received" metric: the handler ends with counter Total-1 and an empty
publish list. -/
theorem consumer_lost_message_no_metric (d : List Nat → Option (List Nat))
    (u : List Nat → Option (Nat × Nat)) (T m : Nat) (msgs : List (List Nat))
    (hT : 2 ≤ T) (hT64 : T < 2 ^ 64) (hmlt : m < T - 1)
    (hmsg : msgs.map (handlerDecode d u) =
      (List.range' 0 m).map (fun c => hres.ok c T) ++
      (List.range' (m + 1) (T - 1 - m)).map (fun c => hres.ok c T)) :
    runHandler d u msgs 0 = some (T - 1, []) := by
  have hlen : msgs.length = m + (T - 1 - m) := by
    have hcongr := congrArg List.length hmsg
    simpa using hcongr
  have hlen1 : (msgs.take m).length = m := by
    rw [List.length_take, hlen]
    exact inf_eq_left.mpr (by omega)
  have hlen2 : (msgs.drop m).length = T - 1 - m := by
    rw [List.length_drop, hlen]
    omega
  have hm1 : (msgs.take m).map (handlerDecode d u) =
      (List.range' 0 m).map (fun c => hres.ok c T) := by
    rw [List.map_take, hmsg]
    exact List.take_left' (by simp)
  have hm2 : (msgs.drop m).map (handlerDecode d u) =
      (List.range' (m + 1) (T - 1 - m)).map (fun c => hres.ok c T) := by
    rw [List.map_drop, hmsg]
    exact List.drop_left' (by simp)
  have hA := runHandler_seq d u T (by omega) hT64 (msgs.take m) 0
    (by rw [hlen1]; exact hm1) (by rw [hlen1]; omega)
  rw [hlen1, if_neg (by omega : ¬ (0 + m = T ∧ 0 < m)), Nat.zero_add] at hA
  have hB := runHandler_desync d u T hT64 (msgs.drop m) (m + 1) m
    (by rw [hlen2]; exact hm2) (by omega) (by rw [hlen2]; omega)
  rw [hlen2, show m + (T - 1 - m) = T - 1 from by omega] at hB
  have hsplit : msgs = msgs.take m ++ msgs.drop m := (List.take_append_drop m msgs).symm
  conv_lhs => rw [hsplit]
  rw [runHandler_append, hA]
  dsimp only
  rw [hB]
  rfl

/-- C5 witness: total 2, the count-0 message missing, only the final
count-1 message delivered: no metric is published. -/
theorem consumer_lost_message_no_metric_witness :
    2 ≤ 2 ∧ 2 < 2 ^ 64 ∧ 0 < 2 - 1 ∧
    ([msgCT 1 2].map (handlerDecode noDecrypt noUnmarshal) =
      (List.range' 0 0).map (fun c => hres.ok c 2) ++
      (List.range' (0 + 1) (2 - 1 - 0)).map (fun c => hres.ok c 2)) ∧
    runHandler noDecrypt noUnmarshal [msgCT 1 2] 0 = some (2 - 1, []) :=
  ⟨by decide, by decide, by decide, by decide,
    consumer_lost_message_no_metric noDecrypt noUnmarshal 2 0 [msgCT 1 2]
      (by decide) (by decide) (by decide) (by decide)⟩

/-- C2 counterexample: a message decoding to total() = 0 does change
receivedCounter — the deferred increment still runs, taking the counter
from 0 to 1 — and inserting one such message into a two-message job after
the job's count-0 message suppresses the completion metric that the
sequence without it produces. -/
theorem total_zero_changes_counter_cex :
    handlerDecode noDecrypt noUnmarshal (msgCT 5 0) = hres.ok 5 0 ∧
    dataHandler noDecrypt noUnmarshal (msgCT 5 0) 0 = some (1, []) ∧
    runHandler noDecrypt noUnmarshal [msgCT 0 2, msgCT 5 0, msgCT 1 2] 0 = some (3, []) ∧
    runHandler noDecrypt noUnmarshal [msgCT 0 2, msgCT 1 2] 0 =
      some (2, [{ Job := "received", Count := 2 }]) := by
  decide

/-- C2 (amended): a delivered message decoding to total() = 0 is discarded
before the reset and completion steps — nothing is published — but the
deferred increment still runs, so receivedCounter becomes (rc+1) mod 2^64
rather than staying unchanged; inserted into a job's sequence after the
count-0 message, such messages can therefore suppress completion. -/
theorem total_zero_discarded_but_counted (d : List Nat → Option (List Nat))
    (u : List Nat → Option (Nat × Nat)) (raw : List Nat) (rc c : Nat)
    (h : handlerDecode d u raw = hres.ok c 0) :
    dataHandler d u raw rc = some ((rc + 1) % 2 ^ 64, []) := by
  simp only [dataHandler, h]
  simp

/-- C2 witness: the amended statement at a concrete total-0 message from
counter 3. -/
theorem total_zero_discarded_but_counted_witness :
    handlerDecode noDecrypt noUnmarshal (msgCT 5 0) = hres.ok 5 0 ∧
    dataHandler noDecrypt noUnmarshal (msgCT 5 0) 3 = some ((3 + 1) % 2 ^ 64, []) :=
  ⟨by decide,
    total_zero_discarded_but_counted noDecrypt noUnmarshal (msgCT 5 0) 3 5 (by decide)⟩

/-- C3 counterexample: on a decodable message with total() = 5 and
count() = 0, the handler entered with receivedCounter 7 leaves the counter
at 1, not 0: the reset to 0 runs in the body and the deferred increment
runs after it, at return. -/
theorem count_zero_reset_cex :
    handlerDecode noDecrypt noUnmarshal (msgCT 0 5) = hres.ok 0 5 ∧
    dataHandler noDecrypt noUnmarshal (msgCT 0 5) 7 = some (1, []) := by
  decide

/-- C3 (amended): for every handler invocation on a decodable message
with total() nonzero and count() = 0, whatever the entry counter, the
handler returns with receivedCounter equal to 1 — the body's reset to 0
happens first and the deferred unconditional increment happens after it,
at return, so the increment wins — and the invocation publishes the
completion metric exactly when total() = 1. -/
theorem count_zero_invocation_counter_one (d : List Nat → Option (List Nat))
    (u : List Nat → Option (Nat × Nat)) (raw : List Nat) (rc t : Nat)
    (h : handlerDecode d u raw = hres.ok 0 t) (ht : t ≠ 0) :
    dataHandler d u raw rc =
      some (1, if t = 1 then [{ Job := "received", Count := 1 }] else []) := by
  have hstep := dataHandler_ok d u raw rc 0 t h ht
  rw [if_pos rfl] at hstep
  rw [hstep]
  by_cases ht1 : t = 1
  · rw [if_pos (⟨by omega, by omega⟩ : 0 = t - 1 ∧ 0 = t - 1), if_pos ht1, ht1]
    norm_num
  · rw [if_neg (by omega : ¬ (0 = t - 1 ∧ 0 = t - 1)), if_neg ht1]
    norm_num

/-- C3 witness: the amended statement at a concrete count-0 total-5
message from counter 7. -/
theorem count_zero_invocation_counter_one_witness :
    handlerDecode noDecrypt noUnmarshal (msgCT 0 5) = hres.ok 0 5 ∧
    dataHandler noDecrypt noUnmarshal (msgCT 0 5) 7 =
      some (1, if 5 = 1 then [{ Job := "received", Count := 1 }] else []) :=
  ⟨by decide,
    count_zero_invocation_counter_one noDecrypt noUnmarshal (msgCT 0 5) 7 5
      (by decide) (by decide)⟩

/-- C4 counterexample: on a 3-byte delivered message the handler does not
discard and return normally — extracting the payload indexes past the end
of the slice and the invocation panics (no MalformedMessage error exists
anywhere in the handler). -/
theorem short_message_discard_cex :
    ([1, 2, 3] : List Nat).length < 8 ∧
    dataHandler noDecrypt noUnmarshal [1, 2, 3] 0 = none := by
  decide

/-- C4 (amended): for every delivered RawMessage shorter than 8 bytes,
the handler panics — the out-of-range slice expression raw[8:] aborts the
invocation — rather than failing with a recoverable decode error and
returning normally. -/
theorem short_message_handler_panics (d : List Nat → Option (List Nat))
    (u : List Nat → Option (Nat × Nat)) (raw : List Nat) (rc : Nat)
    (h : raw.length < 8) :
    dataHandler d u raw rc = none := by
  have hm : rawMessage.message raw = none := by
    unfold rawMessage.message
    rw [if_pos h]
  have hdec : handlerDecode d u raw = hres.panicked := by
    unfold handlerDecode
    cases hfmt : rawMessage.format raw with
    | none => rw [hm]
    | some f =>
      cases hkind : rawMessage.messageType raw with
      | none => rw [hm]
      | some k => rw [hm]
  simp only [dataHandler, hdec]

/-- C4 witness: the amended statement at the empty delivered message. -/
theorem short_message_handler_panics_witness :
    ([] : List Nat).length < 8 ∧
    dataHandler noDecrypt noUnmarshal [] 0 = none :=
  ⟨by decide, short_message_handler_panics noDecrypt noUnmarshal [] 0 (by decide)⟩

/-- C10: a delivered message of length at least 8 whose format tag is
neither "encr" nor "byte" is handled exactly as the same message with the
format tag overwritten by "byte": no decryption is attempted (the two
sides may use different decrypters), the message is not discarded at the
format step, and decoding proceeds on the raw payload bytes. -/
theorem unknown_format_treated_as_byte (d dR : List Nat → Option (List Nat))
    (u : List Nat → Option (Nat × Nat)) (raw : List Nat) (rc : Nat)
    (hlen : 8 ≤ raw.length)
    (hencr : rawMessage.format raw ≠ some encrTag)
    (hbyte : rawMessage.format raw ≠ some byteTag) :
    dataHandler d u raw rc = dataHandler dR u (raw.take 4 ++ byteTag ++ raw.drop 8) rc := by
  have htl : (raw.take 4).length = 4 := by
    rw [List.length_take]
    exact inf_eq_left.mpr (by omega)
  have hl2 : (raw.take 4 ++ byteTag ++ raw.drop 8).length = raw.length := by
    simp only [List.length_append, List.length_drop, htl]
    have hbt : byteTag.length = 4 := by decide
    omega
  have hfmt2 : rawMessage.format (raw.take 4 ++ byteTag ++ raw.drop 8) = some byteTag := by
    unfold rawMessage.format
    rw [if_neg (by omega), List.append_assoc, List.drop_left' htl,
      List.take_left' (by decide : byteTag.length = 4)]
  have hmsg2 : rawMessage.message (raw.take 4 ++ byteTag ++ raw.drop 8) =
      some (raw.drop 8) := by
    unfold rawMessage.message
    rw [if_neg (by omega), List.drop_left' (by simp [htl, byteTag])]
  have hkind2 : rawMessage.messageType (raw.take 4 ++ byteTag ++ raw.drop 8) =
      some (raw.take 4) := by
    unfold rawMessage.messageType
    rw [if_neg (by omega), List.append_assoc, List.take_left' htl]
  have hmsg1 : rawMessage.message raw = some (raw.drop 8) := by
    unfold rawMessage.message
    rw [if_neg (by omega)]
  have hfmt1 : rawMessage.format raw = some ((raw.drop 4).take 4) := by
    unfold rawMessage.format
    rw [if_neg (by omega)]
  have hkind1 : rawMessage.messageType raw = some (raw.take 4) := by
    unfold rawMessage.messageType
    rw [if_neg (by omega)]
  have hne : (raw.drop 4).take 4 ≠ encrTag := by
    intro hx
    exact hencr (by rw [hfmt1, hx])
  have hdec : handlerDecode d u raw =
      handlerDecode dR u (raw.take 4 ++ byteTag ++ raw.drop 8) := by
    simp only [handlerDecode, hmsg1, hfmt1, hkind1, hmsg2, hfmt2, hkind2]
    rw [if_neg hne, if_neg (by decide : ¬ (byteTag = encrTag))]
  simp only [dataHandler, hdec]

/-- C10 witness: a message with format tag "xxxx" and an unrecognised
kind tag, against a decrypter that would corrupt it if consulted. -/
theorem unknown_format_treated_as_byte_witness :
    8 ≤ oddFormatMsg.length ∧
    rawMessage.format oddFormatMsg ≠ some encrTag ∧
    rawMessage.format oddFormatMsg ≠ some byteTag ∧
    dataHandler noDecrypt noUnmarshal oddFormatMsg 0 =
      dataHandler junkDecrypt noUnmarshal
        (oddFormatMsg.take 4 ++ byteTag ++ oddFormatMsg.drop 8) 0 :=
  ⟨by decide, by decide, by decide,
    unknown_format_treated_as_byte noDecrypt junkDecrypt noUnmarshal oddFormatMsg 0
      (by decide) (by decide) (by decide)⟩

/-- C8: a parsed configuration whose AES key is not exactly 32 bytes is
rejected by readConfig with the key-length ConfigError, and the master
process then publishes nothing at all — validation happens once at
startup, before any message is generated or sent. -/
theorem invalid_key_rejected_at_startup (config : configuration) (gen : rawMessageGenerator)
    (h : config.AESEncryptionKey.length ≠ 32) :
    readConfig (some config) = Except.error "config: len(config.AESEncryptionKey) != 32" ∧
    masterRun (some config) gen = some [] := by
  have h1 : readConfig (some config) =
      Except.error "config: len(config.AESEncryptionKey) != 32" := by
    simp only [readConfig]
    rw [if_pos h]
  refine ⟨h1, ?_⟩
  simp only [masterRun, h1]

/-- C8 witness: a configuration with a 3-byte key is rejected and nothing
is published, whatever generator the scenario would have built. -/
theorem invalid_key_rejected_at_startup_witness :
    badKeyConfig.AESEncryptionKey.length ≠ 32 ∧
    readConfig (some badKeyConfig) =
      Except.error "config: len(config.AESEncryptionKey) != 32" ∧
    masterRun (some badKeyConfig) countGen = some [] :=
  ⟨by decide,
    (invalid_key_rejected_at_startup badKeyConfig countGen (by decide)).1,
    (invalid_key_rejected_at_startup badKeyConfig countGen (by decide)).2⟩

/-- The publish loop from `count` with `fuel` iterations left maps the
generator over the remaining counts in increasing order. -/
theorem publishLoopAux_spec (gen : rawMessageGenerator) (total : Nat) (f : Nat → List Nat)
    (h : ∀ c, c < total → gen c total = some (f c)) :
    ∀ fuel count, count + fuel = total →
      publishLoopAux gen total fuel count = some ((List.range' count fuel).map f) := by
  intro fuel
  induction fuel with
  | zero =>
    intro count _
    simp [publishLoopAux]
  | succ fuel ih =>
    intro count hc
    simp only [publishLoopAux, h count (by omega), ih (count + 1) (by omega),
      List.range'_succ, List.map_cons]

/-- C9: in the publishing state the master invokes the configured
generator once per count, with the arguments (count, total) for count =
0, 1, ..., total-1 in increasing order, and publishes each produced
message: the published sequence is exactly the generator's outputs over
`List.range total`, in order. -/
theorem publish_burst_in_order (gen : rawMessageGenerator) (total : Nat) (f : Nat → List Nat)
    (h : ∀ c, c < total → gen c total = some (f c)) :
    publishLoop gen total = some ((List.range total).map f) := by
  unfold publishLoop
  rw [publishLoopAux_spec gen total f h total 0 (by omega), List.range_eq_range']

/-- C9 witness: three messages published in count order. -/
theorem publish_burst_in_order_witness :
    (∀ c, c < 3 → countGen c 3 = some [c]) ∧
    publishLoop countGen 3 = some ((List.range 3).map (fun c => [c])) :=
  ⟨by decide, publish_burst_in_order countGen 3 (fun c => [c]) (by decide)⟩
